import Mathlib

/-!
Verification of the HydroOJ course plugin (`src/index.ts`): a shallow
embedding of the course data model, the course-list visibility filter, the
enrollment operation, the progress journal and scoreboard aggregation, the
attachment quota checks, the edit-form validation and the course time
phases, together with theorems settling the specified properties.

Dates are modelled as `Int` epoch milliseconds (JS `Date` comparisons
coerce to the millisecond value); JS numbers occurring as ids, counters,
sizes and scores are modelled as `Int`; JS strings are modelled as `String`
where only equality matters and as `List Char` where character-level
behaviour (regex matching, numeric coercion) matters.
-/

namespace HydroCourse

/-- One element of `CourseStatusDoc.journal`: `{ pid, rid, score, status }`.
The submission id `rid` is abstracted to a `Nat`. -/
structure JournalEntry where
  pid : Int
  rid : Nat
  score : Int
  status : Int
deriving Repr, DecidableEq

/-- One element of `CourseDoc.files`: the attachment name and its optional
declared byte size (`size?: number`). -/
structure FileEntry where
  name : String
  size : Option Int
deriving Repr, DecidableEq

/-- The course document `CourseDoc`, restricted to the fields the verified
handlers read. `assign` and `classes` are `Option` because the TypeScript
fields are optional and the Mongo operators `$size` and `$in` distinguish
an absent field from a present empty array. `maintainer` and `teachers`
are plain lists: every read in the verified code paths treats an absent
array exactly like an empty one (`|| []`, and Mongo membership queries
match neither). `title` is a character list because the title search is a
regex match. -/
structure CourseDoc where
  owner : Int
  maintainer : List Int
  teachers : List Int
  title : List Char
  beginAt : Int
  endAt : Int
  pids : List Int
  assign : Option (List String)
  classes : Option (List String)
  files : List FileEntry
deriving Repr, DecidableEq

/-- `CourseModel.isOngoing`: `cdoc.beginAt <= now && now < cdoc.endAt`,
with `new Date()` passed explicitly as `now`. -/
def isOngoing (cdoc : CourseDoc) (now : Int) : Bool :=
  decide (cdoc.beginAt ≤ now) && decide (now < cdoc.endAt)

/-- `CourseModel.isNotStarted`: `new Date() < cdoc.beginAt`. -/
def isNotStarted (cdoc : CourseDoc) (now : Int) : Bool :=
  decide (now < cdoc.beginAt)

/-- `CourseModel.isDone`: `cdoc.endAt <= new Date()`. -/
def isDone (cdoc : CourseDoc) (now : Int) : Bool :=
  decide (cdoc.endAt ≤ now)

/-- The fields of the per-user course status record written by the enroll
operation: `attend` and `enroll` as set by
`setIfNotStatus(..., 'attend', 1, 1, { enroll: 1, startAt: new Date() })`. -/
structure StatusRec where
  attend : Int
  enroll : Int
deriving Repr, DecidableEq

/-- Store state for one (course, user) pair: the optional status record
and the course document's `attend` counter. -/
structure EnrollState where
  record : Option StatusRec
  counter : Int
deriving Repr, DecidableEq

/-- Result of an operation that either returns a new store state or throws
an error message. -/
inductive EnrollResult where
  | ok (s : EnrollState)
  | error (msg : String)
deriving Repr, DecidableEq

/-- The host store primitive
`DocumentModel.setIfNotStatus(domainId, TYPE_COURSE, cid, uid, 'attend', 1, 1, args)`
(an external interface of the host platform): an atomic conditional write
that fails iff a status record with `attend = 1` already exists for the
pair, and otherwise creates or updates the record with `attend := 1`,
`enroll := 1`. -/
def setIfNotStatus (s : EnrollState) : EnrollResult :=
  match s.record with
  | some r =>
      if r.attend == 1 then .error "document already exists"
      else .ok { s with record := some { attend := 1, enroll := 1 } }
  | none => .ok { s with record := some { attend := 1, enroll := 1 } }

/-- `CourseModel.attend` (lines 119-126): run the conditional status write;
on its failure rethrow `'Already enrolled in this course'` without touching
anything else; only on success increment the course `attend` counter by 1
(`DocumentModel.inc(..., 'attend', 1)`). -/
def attend (s : EnrollState) : EnrollResult :=
  match setIfNotStatus s with
  | .error _ => .error "Already enrolled in this course"
  | .ok s2 => .ok { s2 with counter := s2.counter + 1 }

/-- Run `n` enroll calls for the same (course, user) pair, serialized: the
store primitive in `attend` is atomic and is the only step that reads or
writes shared state, so any concurrent execution of the calls is equivalent
to some serialization. Returns the final state and the number of calls
that succeeded; a failed call leaves the state unchanged. -/
def runAttends : Nat → EnrollState → EnrollState × Nat
  | 0, s => (s, 0)
  | n + 1, s =>
    match attend s with
    | .ok s2 => ((runAttends n s2).1, (runAttends n s2).2 + 1)
    | .error _ => runAttends n s

/-- Outcome of `CourseDetailHandler.postAttend`. -/
inductive AttendOutcome where
  | courseEnded
  | alreadyEnrolled
  | ok (s : EnrollState)
deriving Repr, DecidableEq

/-- `CourseDetailHandler.postAttend` (lines 312-318): throw
`ValidationError('Course has ended')` when `CourseModel.isDone(this.cdoc)`
holds, before `CourseModel.attend` runs (so the store state is untouched);
otherwise run the enroll operation. -/
def postAttend (cdoc : CourseDoc) (now : Int) (s : EnrollState) : AttendOutcome :=
  if isDone cdoc now then .courseEnded
  else
    match attend s with
    | .error _ => .alreadyEnrolled
    | .ok s2 => .ok s2

/-- `xs.some((x) => ys.includes(x))`: some element of `xs` occurs in `ys`.
This is also the Mongo semantics of `{field: {$in: ys}}` on an array field
holding `xs` (with `ys` a list of strings, so an absent field, modelled as
`[]`, matches nothing). -/
def anyMem (xs ys : List String) : Bool := xs.any (fun x => ys.contains x)

/-- The access filter built by `CourseMainHandler.get` (lines 166-186), as
a predicate on one course document, under Mongo evaluation rules:
`{field: v}` on an array field tests membership and fails on an absent
field; `{assign: {$in: gs}}` on an absent `assign` matches nothing;
`{assign: {$size: 0}}` matches only a present empty array. `group = none`
models the empty `group` query parameter (empty strings are falsy). When
the viewer has `PERM_VIEW_HIDDEN_HOMEWORK` and no group filter was given,
no `$or` is added and every course matches. `groups` is the group name
list fetched at line 160 (the viewer's own groups when the viewer lacks
`PERM_VIEW_HIDDEN_HOMEWORK`). -/
def courseListMatch (uid : Int) (groups : List String) (hasHiddenPerm : Bool)
    (group : Option String) (c : CourseDoc) : Bool :=
  if hasHiddenPerm && group.isNone then true
  else
    c.maintainer.contains uid
    || c.owner == uid
    || c.teachers.contains uid
    || anyMem (c.assign.getD []) groups
    || anyMem (c.classes.getD []) groups
    || c.assign == some []
    || (match group with
        | some g => (c.assign.getD []).contains g || (c.classes.getD []).contains g
        | none => false)

/-- Modelled from the claim wording (C3), for comparison with
`courseListMatch`: the listed branches are owner, maintainer, teacher,
assigned-group set meets the viewer's groups, assigned-group set empty,
and an explicit group filter contained in the assigned-group set or the
legacy class set. The claim lists no branch for the legacy class set
meeting the viewer's groups. -/
def claimListMatch (uid : Int) (groups : List String) (hasHiddenPerm : Bool)
    (group : Option String) (c : CourseDoc) : Bool :=
  if hasHiddenPerm && group.isNone then true
  else
    c.owner == uid
    || c.maintainer.contains uid
    || c.teachers.contains uid
    || anyMem (c.assign.getD []) groups
    || c.assign == some []
    || (match group with
        | some g => (c.assign.getD []).contains g || (c.classes.getD []).contains g
        | none => false)

/-- The access check of `CourseDetailHandler.prepare` (lines 236-244): only
when `this.cdoc.assign?.length` is truthy (field present and non-empty)
and the viewer is neither the owner nor holds
`PERM_VIEW_HIDDEN_HOMEWORK`, the viewer must share an assign group, share
a legacy class group, or be a listed teacher; in every other case the
course is accessible. -/
def detailAccessible (uid : Int) (groups : List String) (hasHiddenPerm : Bool)
    (c : CourseDoc) : Bool :=
  if !(c.assign.getD []).isEmpty && !(c.owner == uid) && !hasHiddenPerm then
    anyMem (c.assign.getD []) groups
    || anyMem (c.classes.getD []) groups
    || c.teachers.contains uid
  else true

/-- Per-problem progress entry used by `CourseScoreboardHandler.get`
(line 536): `(csdoc.journal || []).find((j) => j.pid === pid)` - the FIRST
matching entry in journal order. The per-problem score (line 537) is
`progress?.score || 0`. -/
def scoreboardScore (journal : List JournalEntry) (pid : Int) : Int :=
  match journal.find? (fun j => j.pid == pid) with
  | some j => j.score
  | none => 0

/-- The scoreboard row total (`CourseScoreboardHandler.get` lines 535-539):
the loop `row.totalScore += progress?.score || 0` over `cdoc.pids`. -/
def totalScore (journal : List JournalEntry) (pids : List Int) : Int :=
  pids.foldl (fun acc pid => acc + scoreboardScore journal pid) 0

/-- The per-problem progress map `psdict` built by `CourseDetailHandler.get`
(lines 279-283): filter the journal to problems currently in the course's
pid list, then assign each entry to `psdict[pdetail.pid]` in order, so a
later entry for the same problem overwrites an earlier one. -/
def detailPsdict (journal : List JournalEntry) (pids : List Int) :
    Int → Option JournalEntry :=
  (journal.filter (fun p => pids.contains p.pid)).foldl
    (fun m e => fun p => if p == e.pid then some e else m p) (fun _ => none)

/-- Modelled from the spec wording for C1: the effective entry for a
problem is the last journal entry, by append order, whose problem id
matches. -/
def specLastEntry (journal : List JournalEntry) (pid : Int) : Option JournalEntry :=
  journal.reverse.find? (fun j => j.pid == pid)

/-- Modelled from the amended wording for C1: the first journal entry, by
append order, whose problem id matches, written by direct recursion. -/
def specFirstEntry : List JournalEntry → Int → Option JournalEntry
  | [], _ => none
  | e :: rest, pid => if e.pid == pid then some e else specFirstEntry rest pid

/-- Outcome of `CourseFilesHandler.postUploadFile`. Only the `accepted`
outcome carries a storage write and a new attachment list; every rejecting
outcome is thrown before the `StorageModel.put` call, leaving the course's
attachment list untouched. -/
inductive UploadOutcome where
  | fileLimitCount
  | fileLimitSize
  | missingFile
  | accepted (newFiles : List FileEntry)
deriving Repr, DecidableEq

/-- Aggregate size of the existing attachments (line 462):
`(this.cdoc.files || []).reduce((acc, i) => acc + (i.size || 0), 0)`. -/
def sumSizes (files : List FileEntry) : Int :=
  files.foldl (fun acc i => acc + i.size.getD 0) 0

/-- `CourseFilesHandler.postUploadFile` (lines 456-472) up to the storage
write, with checks in source order. `countLimit` and `sizeLimit` are the
system settings `limit.contest_files` and `limit.contest_files_size`;
`file?` is the uploaded file's name and byte size, `none` when the request
carried no file. -/
def postUploadFile (files : List FileEntry) (countLimit sizeLimit : Int)
    (file? : Option (String × Int)) : UploadOutcome :=
  if (files.length : Int) ≥ countLimit then .fileLimitCount
  else
    match file? with
    | none => .missingFile
    | some (fname, fsize) =>
      if sumSizes files + fsize ≥ sizeLimit then .fileLimitSize
      else .accepted (files ++ [{ name := fname, size := some fsize }])

/-- The comma splitting of `postUpdate` line 377:
`_pids.replace(/，/g, ',').split(',')` - split on half-width commas after
normalizing full-width ones, keeping empty tokens. -/
def splitComma : List Char → List (List Char)
  | [] => [[]]
  | c :: t =>
    match splitComma t with
    | [] => [[]]
    | cur :: rest =>
      if c == ',' || c == '，' then [] :: cur :: rest
      else (c :: cur) :: rest

/-- Whitespace stripped by the JS numeric coercion of a string. -/
def isJsSpace (c : Char) : Bool :=
  c == ' ' || c == '\t' || c == '\n' || c == '\r'

/-- Strip leading and trailing whitespace. -/
def jsTrim (s : List Char) : List Char :=
  ((s.dropWhile isJsSpace).reverse.dropWhile isJsSpace).reverse

/-- Value of a non-empty decimal digit string. -/
def digitsToInt (ds : List Char) : Int :=
  ds.foldl (fun a c => a * 10 + ((c.toNat : Int) - 48)) 0

/-- JS unary plus on a string (`+i` at line 377), for the fragment needed
here: after trimming, the empty string coerces to 0, an optional sign
followed by decimal digits coerces to the signed value, and anything else
(in particular every non-numeric id) is NaN, modelled as `none`. -/
def jsToNumber (s : List Char) : Option Int :=
  match jsTrim s with
  | [] => some 0
  | '-' :: ds =>
      if !ds.isEmpty && ds.all Char.isDigit then some (-(digitsToInt ds)) else none
  | '+' :: ds =>
      if !ds.isEmpty && ds.all Char.isDigit then some (digitsToInt ds) else none
  | ds => if ds.all Char.isDigit then some (digitsToInt ds) else none

/-- The pid list computation of `postUpdate` line 377 on the comma tokens:
`.map((i) => +i).filter((i) => i)` keeps only truthy numbers, silently
dropping NaN (non-numeric tokens) and 0. -/
def parsePidsTokens (tokens : List (List Char)) : List Int :=
  tokens.filterMap (fun tok =>
    match jsToNumber tok with
    | none => none
    | some v => if v == 0 then none else some v)

/-- The full pid list computation of `postUpdate` line 377. -/
def parsePids (s : List Char) : List Int :=
  parsePidsTokens (splitComma s)

/-- Outcome of `CourseEditHandler.postUpdate`: a thrown `ValidationError`
with its two field arguments, or success carrying the data passed on to
`CourseModel.add` / `CourseModel.edit`. Errors are thrown before any
document write, so on failure no course document is created or modified. -/
inductive UpdateResult where
  | validationError (f1 f2 : String)
  | ok (pids : List Int) (beginAt endAt : Int)
deriving Repr, DecidableEq

/-- The validation and parse phase of `CourseEditHandler.postUpdate`
(lines 377-383). `beginAt?` and `endAt?` are the parsed date-time inputs,
`none` modelling an invalid date (`isNaN(getTime())`); `pidsStr` is the
raw `pids` form field. -/
def postUpdate (beginAt? endAt? : Option Int) (pidsStr : List Char) : UpdateResult :=
  match beginAt? with
  | none => .validationError "beginAtDate" "beginAtTime"
  | some b =>
    match endAt? with
    | none => .validationError "endAtDate" "endAtTime"
    | some e =>
      if b ≥ e then .validationError "endAtDate" "endAtTime"
      else .ok (parsePids pidsStr) b e

/-- JS `toLowerCase`, applied charwise (faithful on the ASCII range used
by the theorems below). -/
def jsToLower (s : List Char) : List Char := s.map Char.toLower

/-- The line terminators recognized by a JS multiline `^` anchor. -/
def isLineTerm (c : Char) : Bool :=
  c == '\n' || c == '\r' || c == '\u2028' || c == '\u2029'

/-- Scan for a multiline anchor hit strictly inside the string: does the
literal `pat` occur immediately after some line terminator of `s`? -/
def mlAfterTerm (pat : List Char) : List Char → Bool
  | [] => false
  | c :: t => (isLineTerm c && pat.isPrefixOf t) || mlAfterTerm pat t

/-- Test of the JS regex `new RegExp('^' + escaped, 'gim')` against a
string, for a literal pattern `pat`: under the `m` flag, `^` matches at
the start of the string and right after every line terminator. -/
def mlAnchorTest (pat s : List Char) : Bool :=
  pat.isPrefixOf s || mlAfterTerm pat s

/-- Test of the JS regex `new RegExp(escaped, 'gim')` against a string,
for a literal pattern `pat`: an occurrence anywhere as a substring. -/
def substringTest (pat : List Char) : List Char → Bool
  | [] => pat.isEmpty
  | c :: t => pat.isPrefixOf (c :: t) || substringTest pat t

/-- The title filter of `CourseMainHandler.get` (lines 163 and 189-191)
for a non-empty query `q`: the query is lowercased and regex-escaped (so
it is a literal pattern), and matched with flags `gim`; the
case-insensitive `i` flag is modelled by lowercasing both sides. A query
of length ≥ 2 becomes an unanchored pattern, a single-character query a
`^`-anchored pattern under the `m` flag. -/
def titleMatch (q title : List Char) : Bool :=
  if q.length ≥ 2 then substringTest (jsToLower q) (jsToLower title)
  else mlAnchorTest (jsToLower q) (jsToLower title)

/-- A concrete course document used by witnesses: 2024-01-01 to 2024-01-31
(epoch milliseconds). -/
def cJan : CourseDoc :=
  { owner := 1, maintainer := [], teachers := [], title := [],
    beginAt := 1704067200000, endAt := 1706659200000, pids := [],
    assign := none, classes := none, files := [] }

/-- A concrete course whose legacy class list meets the viewer's groups
while none of the claim C3 branches hold. -/
def cClasses : CourseDoc :=
  { owner := 1, maintainer := [], teachers := [], title := [],
    beginAt := 0, endAt := 1, pids := [],
    assign := some ["other"], classes := some ["g1"], files := [] }

/-- A concrete course with an absent `assign` field, used for C9. -/
def cNoAssign : CourseDoc :=
  { owner := 1, maintainer := [2], teachers := [3], title := [],
    beginAt := 0, endAt := 1, pids := [],
    assign := none, classes := some ["x"], files := [] }

/-- A concrete journal: problem 1 scored 100, then resubmitted for 40. -/
def jResub : List JournalEntry :=
  [{ pid := 1, rid := 11, score := 100, status := 1 },
   { pid := 1, rid := 12, score := 40, status := 1 }]

/-- A concrete journal for the total-score counterexample: problem 2
scored 100, then resubmitted for 40. -/
def jResub2 : List JournalEntry :=
  [{ pid := 2, rid := 21, score := 100, status := 1 },
   { pid := 2, rid := 22, score := 40, status := 1 }]

/-- A call of `attend` that finds an existing status record with
`attend = 1` fails with the already-enrolled error. -/
theorem attend_of_enrolled (s : EnrollState) (r : StatusRec) (hr : s.record = some r)
    (ha : r.attend = 1) : attend s = .error "Already enrolled in this course" := by
  simp [attend, setIfNotStatus, hr, ha]

/-- Enroll calls against an already-enrolled state all fail and leave the
state unchanged. -/
theorem runAttends_enrolled (n : Nat) (s : EnrollState) (r : StatusRec)
    (hr : s.record = some r) (ha : r.attend = 1) : runAttends n s = (s, 0) := by
  induction n with
  | zero => rfl
  | succ n ih => simp [runAttends, attend_of_enrolled s r hr ha, ih]

/-- C2: starting from no enrollment record, any number `n ≥ 1` of enroll
calls for the same (course, user) pair - serialized, which covers every
concurrent execution because the conditional store write is the only
atomic step touching shared state - yields exactly one enrollment record
(with `attend = 1`, `enroll = 1`), exactly one successful call, and a
course counter incremented exactly once; and a call that finds an existing
enrollment with `attend = 1` fails with the already-enrolled error, never
reaching the counter increment. -/
theorem attend_at_most_once (c : Int) (n : Nat) (h : 1 ≤ n) (s : EnrollState)
    (r : StatusRec) (hr : s.record = some r) (ha : r.attend = 1) :
    runAttends n { record := none, counter := c } =
      ({ record := some { attend := 1, enroll := 1 }, counter := c + 1 }, 1)
    ∧ attend s = .error "Already enrolled in this course" := by
  obtain ⟨m, rfl⟩ : ∃ m, n = m + 1 := ⟨n - 1, by omega⟩
  refine ⟨?_, attend_of_enrolled s r hr ha⟩
  have h1 : attend { record := none, counter := c } =
      .ok { record := some { attend := 1, enroll := 1 }, counter := c + 1 } := rfl
  have h2 := runAttends_enrolled m
    { record := some { attend := 1, enroll := 1 }, counter := c + 1 }
    { attend := 1, enroll := 1 } rfl rfl
  simp [runAttends, h1, h2]

/-- Witness for C2 at `n = 3` enroll calls starting from counter 0, and an
already-enrolled state with counter 5. -/
theorem attend_at_most_once_witness :
    runAttends 3 { record := none, counter := 0 } =
      ({ record := some { attend := 1, enroll := 1 }, counter := 1 }, 1)
    ∧ attend { record := some { attend := 1, enroll := 0 }, counter := 5 } =
        .error "Already enrolled in this course" :=
  attend_at_most_once 0 3 (by decide)
    { record := some { attend := 1, enroll := 0 }, counter := 5 }
    { attend := 1, enroll := 0 } rfl rfl

/-- C7: a course counts as done exactly when `endAt ≤ now`, and an enroll
attempt on a done course fails with the course-ended error before the
atomic enroll step runs, leaving the enrollment state untouched. -/
theorem attend_after_end (cdoc : CourseDoc) (now : Int) (s : EnrollState) :
    (isDone cdoc now = true ↔ cdoc.endAt ≤ now)
    ∧ (cdoc.endAt ≤ now → postAttend cdoc now s = .courseEnded) := by
  constructor
  · simp [isDone]
  · intro h
    simp [postAttend, isDone, h]

/-- Witness for C7: endAt 2024-01-31T00:00Z, attempt at 2024-02-01T00:00Z
(epoch milliseconds). -/
theorem attend_after_end_witness :
    (isDone cJan 1706745600000 = true ↔ cJan.endAt ≤ 1706745600000)
    ∧ postAttend cJan 1706745600000 { record := none, counter := 0 } = .courseEnded :=
  ⟨(attend_after_end cJan 1706745600000 { record := none, counter := 0 }).1,
   (attend_after_end cJan 1706745600000 { record := none, counter := 0 }).2 (by decide)⟩

/-- C10: for a course with `beginAt < endAt`, exactly one of
`isNotStarted`, `isOngoing`, `isDone` holds at every instant, and the
boundary instants `beginAt` and `endAt` fall into the ongoing and the done
phase respectively. -/
theorem phase_trichotomy (c : CourseDoc) (now : Int) (h : c.beginAt < c.endAt) :
    (isNotStarted c now).toNat + (isOngoing c now).toNat + (isDone c now).toNat = 1
    ∧ (now = c.beginAt → isOngoing c now = true)
    ∧ (now = c.endAt → isDone c now = true) := by
  refine ⟨?_, ?_, ?_⟩
  · have e1 : (isNotStarted c now).toNat = if now < c.beginAt then 1 else 0 := by
      by_cases h1 : now < c.beginAt <;> simp [isNotStarted, h1]
    have e2 : (isOngoing c now).toNat =
        if c.beginAt ≤ now ∧ now < c.endAt then 1 else 0 := by
      by_cases h1 : c.beginAt ≤ now <;> by_cases h2 : now < c.endAt <;>
        simp [isOngoing, h1, h2]
    have e3 : (isDone c now).toNat = if c.endAt ≤ now then 1 else 0 := by
      by_cases h1 : c.endAt ≤ now <;> simp [isDone, h1]
    rw [e1, e2, e3]
    split_ifs <;> omega
  · intro he
    subst he
    simp [isOngoing]
    exact h
  · intro he
    subst he
    simp [isDone]

/-- Witness for C10 at the concrete course `cJan` and an instant after its
end. -/
theorem phase_trichotomy_witness :
    (isNotStarted cJan 1706745600000).toNat + (isOngoing cJan 1706745600000).toNat
        + (isDone cJan 1706745600000).toNat = 1
    ∧ (1706745600000 = cJan.beginAt → isOngoing cJan 1706745600000 = true)
    ∧ (1706745600000 = cJan.endAt → isDone cJan 1706745600000 = true) :=
  phase_trichotomy cJan 1706745600000 (by decide)

/-- C5: an upload is rejected with the count-limit error whenever the
current attachment count is at or above the count ceiling; otherwise it is
rejected with the size-limit error whenever the existing sizes plus the
incoming file's size reach the aggregate ceiling; and an accepted upload
implies both checks passed. Every rejecting outcome is produced before the
storage write, with the attachment list unchanged (only the `accepted`
outcome carries a new list). -/
theorem upload_quota (files : List FileEntry) (countLimit sizeLimit : Int)
    (fname : String) (fsize : Int) (newFiles : List FileEntry) :
    ((files.length : Int) ≥ countLimit →
      postUploadFile files countLimit sizeLimit (some (fname, fsize)) = .fileLimitCount)
    ∧ ((files.length : Int) < countLimit → sumSizes files + fsize ≥ sizeLimit →
      postUploadFile files countLimit sizeLimit (some (fname, fsize)) = .fileLimitSize)
    ∧ (postUploadFile files countLimit sizeLimit (some (fname, fsize)) = .accepted newFiles →
      (files.length : Int) < countLimit ∧ sumSizes files + fsize < sizeLimit) := by
  refine ⟨?_, ?_, ?_⟩
  · intro h
    simp [postUploadFile, h]
  · intro h1 h2
    simp [postUploadFile, not_le.mpr h1, h2]
  · intro h
    by_cases h1 : (files.length : Int) ≥ countLimit
    · simp [postUploadFile, h1] at h
    · by_cases h2 : sumSizes files + fsize ≥ sizeLimit
      · simp [postUploadFile, h1, h2] at h
      · exact ⟨not_le.mp h1, not_le.mp h2⟩

/-- Witness for C5: one attachment of size 5 against a count ceiling of 1,
the same attachment against a byte ceiling of 6 with an incoming file of
size 1, and an accepted upload into an empty list. -/
theorem upload_quota_witness :
    postUploadFile [{ name := "a", size := some 5 }] 1 100 (some ("b", 1)) = .fileLimitCount
    ∧ postUploadFile [{ name := "a", size := some 5 }] 2 6 (some ("b", 1)) = .fileLimitSize
    ∧ ((([] : List FileEntry).length : Int) < 2 ∧ sumSizes [] + 1 < 6) :=
  ⟨(upload_quota [{ name := "a", size := some 5 }] 1 100 "b" 1 []).1 (by decide),
   (upload_quota [{ name := "a", size := some 5 }] 2 6 "b" 1 []).2.1 (by decide) (by decide),
   (upload_quota [] 2 6 "b" 1 [{ name := "b", size := some 1 }]).2.2 (by decide)⟩

/-- Counterexample for C3: viewer 5 with groups `["g1"]`, no hidden
permission and no group filter; the course assigns group `"other"` but
lists legacy class `"g1"`. The built filter matches the course through the
`{classes: {$in: groups}}` branch, while the claim's branch list does not
match it. -/
theorem course_list_filter_cex :
    courseListMatch 5 ["g1"] false none cClasses = true
    ∧ claimListMatch 5 ["g1"] false none cClasses = false := by decide

/-- C3 amended: the course-list filter matches iff one of the claim's
branches holds or - the branch the claim omits - the course's legacy class
set intersects the fetched group list; and with the hidden permission and
no group filter the filter matches every course. -/
theorem course_list_filter_amended (uid : Int) (groups : List String)
    (hasHiddenPerm : Bool) (group : Option String) (c : CourseDoc) :
    courseListMatch uid groups hasHiddenPerm group c =
      (claimListMatch uid groups hasHiddenPerm group c
        || (!(hasHiddenPerm && group.isNone) && anyMem (c.classes.getD []) groups))
    ∧ courseListMatch uid groups true none c = true := by
  constructor
  · cases hb : hasHiddenPerm && group.isNone with
    | true => simp [courseListMatch, claimListMatch, hb]
    | false =>
      simp only [courseListMatch, claimListMatch, hb, Bool.false_eq_true, if_false,
        Bool.not_false, Bool.true_and]
      ac_rfl
  · simp [courseListMatch]

/-- C9: a course whose `assign` field is absent, for a viewer who is not
owner, maintainer or teacher, shares no legacy class group, and gives no
group filter, matches no branch of the course-list filter - yet the detail
handler's access check admits it, and admits any course with an absent or
empty `assign` just the same. The course is reachable by direct URL but
never listed. -/
theorem unlisted_but_accessible (uid : Int) (groups : List String) (c : CourseDoc)
    (h1 : c.assign = none) (h2 : (c.owner == uid) = false)
    (h3 : c.maintainer.contains uid = false) (h4 : c.teachers.contains uid = false)
    (h5 : anyMem (c.classes.getD []) groups = false) :
    courseListMatch uid groups false none c = false
    ∧ detailAccessible uid groups false c = true
    ∧ detailAccessible uid groups false { c with assign := some [] } = true := by
  refine ⟨?_, ?_, ?_⟩
  · have h3' : uid ∉ c.maintainer := by simpa using h3
    have h4' : uid ∉ c.teachers := by simpa using h4
    have h5' : ∀ x ∈ c.classes.getD [], x ∉ groups := by simpa [anyMem] using h5
    simp [courseListMatch, h1, h2, anyMem, h3', h4']
    exact h5'
  · simp [detailAccessible, h1]
  · simp [detailAccessible]

/-- Witness for C9 at the concrete course `cNoAssign` and viewer 5 with
groups `["g1"]`. -/
theorem unlisted_but_accessible_witness :
    courseListMatch 5 ["g1"] false none cNoAssign = false
    ∧ detailAccessible 5 ["g1"] false cNoAssign = true
    ∧ detailAccessible 5 ["g1"] false { cNoAssign with assign := some [] } = true :=
  unlisted_but_accessible 5 ["g1"] cNoAssign rfl (by decide) (by decide) (by decide)
    (by decide)

/-- Folding last-one-wins map updates over a list reads back as a find on
the reversed list. -/
theorem foldl_overwrite (l : List JournalEntry) (m : Int → Option JournalEntry)
    (pid : Int) :
    (l.foldl (fun m e => fun p => if p == e.pid then some e else m p) m) pid
      = (l.reverse.find? (fun j => j.pid == pid)).elim (m pid) some := by
  induction l generalizing m with
  | nil => simp
  | cons e t ih =>
    rw [List.foldl_cons, ih, List.reverse_cons, List.find?_append]
    cases hf : t.reverse.find? (fun j => j.pid == pid) with
    | some j => simp [Option.or]
    | none =>
      by_cases hp : e.pid = pid
      · simp [Option.or, hp]
      · simp [Option.or, hp, Ne.symm hp]

/-- Counterexample for C1: the journal `jResub` scores problem 1 with 100
and then resubmits for 40. The last-appended entry has score 40 and the
detail display shows it, but the scoreboard's per-problem score is 100,
not the last entry's 40. -/
theorem effective_entry_cex :
    specLastEntry jResub 1 = some { pid := 1, rid := 12, score := 40, status := 1 }
    ∧ detailPsdict jResub [1] 1 = some { pid := 1, rid := 12, score := 40, status := 1 }
    ∧ scoreboardScore jResub 1 = 100
    ∧ scoreboardScore jResub 1 ≠ (specLastEntry jResub 1).elim 0 (fun j => j.score) := by
  decide

/-- C1 amended: the detail handler's effective entry for a problem is the
last matching journal entry (by append order, restricted to the course's
current problem list), while the scoreboard's per-problem score comes from
the FIRST matching journal entry (0 when none matches). -/
theorem effective_entry_amended (journal : List JournalEntry) (pids : List Int)
    (pid : Int) :
    detailPsdict journal pids pid
      = specLastEntry (journal.filter (fun p => pids.contains p.pid)) pid
    ∧ scoreboardScore journal pid = (specFirstEntry journal pid).elim 0 (fun j => j.score) := by
  constructor
  · rw [detailPsdict, foldl_overwrite, specLastEntry]
    cases (journal.filter (fun p => pids.contains p.pid)).reverse.find?
        (fun j => j.pid == pid) <;> rfl
  · induction journal with
    | nil => rfl
    | cons e t ih =>
      by_cases hp : e.pid = pid
      · have hb : (e.pid == pid) = true := by simpa using hp
        simp [scoreboardScore, specFirstEntry, List.find?_cons, hb]
      · have hb : (e.pid == pid) = false := by simpa using hp
        simp only [scoreboardScore, specFirstEntry, List.find?_cons, hb] at ih ⊢
        exact ih

/-- Folding score accumulation over the pid list is the sum of the mapped
scores. -/
theorem foldl_add_eq_sum (f : Int → Int) (l : List Int) (a : Int) :
    l.foldl (fun acc p => acc + f p) a = a + (l.map f).sum := by
  induction l generalizing a with
  | nil => simp
  | cons p t ih => simp [ih, add_assoc]

/-- Restricting the journal to entries whose problem is in the course's
pid list does not change the first matching entry for a listed problem. -/
theorem find?_filter_mem (journal : List JournalEntry) (pids : List Int) (pid : Int)
    (hmem : pids.contains pid = true) :
    (journal.filter (fun e => pids.contains e.pid)).find? (fun j => j.pid == pid)
      = journal.find? (fun j => j.pid == pid) := by
  induction journal with
  | nil => rfl
  | cons e t ih =>
    rw [List.filter_cons]
    by_cases hk : pids.contains e.pid = true
    · rw [if_pos hk]
      by_cases hp : e.pid = pid
      · have hb : (e.pid == pid) = true := by simpa using hp
        simp only [List.find?_cons, hb]
      · have hb : (e.pid == pid) = false := by simpa using hp
        simp only [List.find?_cons, hb]
        exact ih
    · rw [if_neg hk]
      have hp : e.pid ≠ pid := by
        intro h
        exact hk (by simpa [h] using hmem)
      have hb : (e.pid == pid) = false := by simpa using hp
      simp only [List.find?_cons, hb]
      exact ih

/-- Counterexample for C6: with journal `jResub2` (problem 2 scored 100
then resubmitted for 40) and problem list `[2]`, the scoreboard total is
100, not the 40 that summing the last-appended (spec-effective) entries
would give. -/
theorem total_score_cex :
    totalScore jResub2 [2] = 100
    ∧ (specLastEntry jResub2 2).elim 0 (fun j => j.score) = 40
    ∧ totalScore jResub2 [2] ≠ 40 := by decide

/-- C6 amended: the scoreboard total equals the sum, over exactly the
course's current problem list, of the per-problem score taken from the
FIRST matching journal entry (0 when none matches); journal entries for
problems outside the current list contribute nothing, and an empty problem
list yields total 0. -/
theorem total_score_amended (journal : List JournalEntry) (pids : List Int) :
    totalScore journal pids = (pids.map (scoreboardScore journal)).sum
    ∧ totalScore (journal.filter (fun e => pids.contains e.pid)) pids
        = totalScore journal pids
    ∧ totalScore journal [] = 0 := by
  refine ⟨?_, ?_, rfl⟩
  · rw [totalScore, foldl_add_eq_sum]
    simp
  · rw [totalScore, totalScore, foldl_add_eq_sum, foldl_add_eq_sum]
    have hmap :
        List.map (scoreboardScore (journal.filter (fun e => pids.contains e.pid))) pids
          = List.map (scoreboardScore journal) pids := by
      apply List.map_congr_left
      intro p hp
      simp only [scoreboardScore]
      rw [find?_filter_mem journal pids p (by simpa using hp)]
    rw [hmap]

/-- Counterexample for C4: a pid list containing the non-numeric id `abc`
does not produce a validation error; `postUpdate` succeeds and the
non-numeric token is silently dropped from the stored pid list. -/
theorem pid_validation_cex :
    postUpdate (some 0) (some 100) ['a', 'b', 'c', ',', '3'] = .ok [3] 0 100 := by
  decide

/-- C4 amended: `postUpdate` fails with a validation error exactly for a
malformed begin time, a malformed end time, or `beginAt ≥ endAt` (and on
failure no course document is created or modified, the error being thrown
before any write); a non-numeric problem id is not an error - it is
silently dropped from the parsed pid list, as is the id 0. -/
theorem pid_validation_amended (b e : Int) (s : List Char) (tok : List Char)
    (toks : List (List Char)) :
    postUpdate none (some e) s = .validationError "beginAtDate" "beginAtTime"
    ∧ postUpdate (some b) none s = .validationError "endAtDate" "endAtTime"
    ∧ (b ≥ e → postUpdate (some b) (some e) s = .validationError "endAtDate" "endAtTime")
    ∧ (b < e → postUpdate (some b) (some e) s = .ok (parsePids s) b e)
    ∧ (jsToNumber tok = none → parsePidsTokens (tok :: toks) = parsePidsTokens toks)
    ∧ (jsToNumber tok = some 0 → parsePidsTokens (tok :: toks) = parsePidsTokens toks) := by
  refine ⟨rfl, rfl, ?_, ?_, ?_, ?_⟩
  · intro h
    simp [postUpdate, h]
  · intro h
    simp [postUpdate, not_le.mpr h]
  · intro h
    simp [parsePidsTokens, h]
  · intro h
    simp [parsePidsTokens, h]

/-- Witness for C4 amended: an inverted time range fails; `abc,3`-style
input succeeds; the tokens `abc` and `0` are dropped. -/
theorem pid_validation_amended_witness :
    postUpdate (some 5) (some 3) [] = .validationError "endAtDate" "endAtTime"
    ∧ postUpdate (some 0) (some 100) ['a'] = .ok (parsePids ['a']) 0 100
    ∧ parsePidsTokens [['a']] = parsePidsTokens []
    ∧ parsePidsTokens [['0']] = parsePidsTokens [] :=
  ⟨(pid_validation_amended 5 3 [] [] []).2.2.1 (by decide),
   (pid_validation_amended 0 100 ['a'] [] []).2.2.2.1 (by decide),
   (pid_validation_amended 0 0 [] ['a'] []).2.2.2.2.1 (by decide),
   (pid_validation_amended 0 0 [] ['0'] []).2.2.2.2.2 (by decide)⟩

/-- A boolean prefix test is an existential split of the list. -/
theorem isPrefixOf_iff_exists (p s : List Char) :
    p.isPrefixOf s = true ↔ ∃ r, s = p ++ r := by
  rw [List.isPrefixOf_iff_prefix]
  exact ⟨fun ⟨r, hr⟩ => ⟨r, hr.symm⟩, fun ⟨r, hr⟩ => ⟨r, hr.symm⟩⟩

/-- The substring test holds exactly when the pattern occurs somewhere in
the string. -/
theorem substringTest_iff (p : List Char) (s : List Char) :
    substringTest p s = true ↔ ∃ l r, s = l ++ p ++ r := by
  induction s with
  | nil =>
    simp only [substringTest, List.isEmpty_iff]
    constructor
    · intro h
      exact ⟨[], [], by simp [h]⟩
    · rintro ⟨l, r, hr⟩
      have h1 := List.append_eq_nil.mp hr.symm
      exact (List.append_eq_nil.mp h1.1).2
  | cons c t ih =>
    simp only [substringTest, Bool.or_eq_true, ih, isPrefixOf_iff_exists]
    constructor
    · rintro (⟨r, hr⟩ | ⟨l, r, hr⟩)
      · exact ⟨[], r, by simpa using hr⟩
      · exact ⟨c :: l, r, by simp [hr]⟩
    · rintro ⟨l, r, hr⟩
      rcases l with _ | ⟨c2, l⟩
      · exact .inl ⟨r, by simpa using hr⟩
      · right
        simp only [List.cons_append, List.cons.injEq] at hr
        exact ⟨l, r, hr.2⟩

/-- The after-terminator scan holds exactly when the pattern occurs right
after some line terminator. -/
theorem mlAfterTerm_iff (p : List Char) (s : List Char) :
    mlAfterTerm p s = true ↔
      ∃ l c r, s = l ++ c :: r ∧ isLineTerm c = true ∧ ∃ r2, r = p ++ r2 := by
  induction s with
  | nil =>
    simp only [mlAfterTerm, Bool.false_eq_true, false_iff]
    rintro ⟨l, c, r, hr, _⟩
    exact absurd hr.symm (by simp)
  | cons c t ih =>
    simp only [mlAfterTerm, Bool.or_eq_true, Bool.and_eq_true, ih, isPrefixOf_iff_exists]
    constructor
    · rintro (⟨hterm, r2, hr⟩ | ⟨l, c2, r, hr, hterm, r2, hr2⟩)
      · exact ⟨[], c, t, by simp, hterm, r2, hr⟩
      · exact ⟨c :: l, c2, r, by simp [hr], hterm, r2, hr2⟩
    · rintro ⟨l, c2, r, hr, hterm, r2, hr2⟩
      rcases l with _ | ⟨c3, l⟩
      · left
        simp only [List.nil_append, List.cons.injEq] at hr
        exact ⟨hr.1 ▸ hterm, r2, hr.2 ▸ hr2⟩
      · right
        simp only [List.cons_append, List.cons.injEq] at hr
        exact ⟨l, c2, r, hr.2, hterm, r2, hr2⟩

/-- On a string without line terminators the after-terminator scan never
hits. -/
theorem mlAfterTerm_of_noTerm (p s : List Char)
    (h : s.all (fun c => !(isLineTerm c)) = true) : mlAfterTerm p s = false := by
  induction s with
  | nil => rfl
  | cons c t ih =>
    simp only [List.all_cons, Bool.and_eq_true, Bool.not_eq_true'] at h
    simp [mlAfterTerm, h.1, ih h.2]

/-- Counterexample for C8: the single-character query `a` matches the
title `b\nA` - the second line starts with `a` after lowercasing - even
though the title does not start with that character. The claim says a
single-character query matches only as a title prefix. -/
theorem title_search_cex :
    titleMatch ['a'] ['b', '\n', 'A'] = true
    ∧ (jsToLower ['a']).isPrefixOf (jsToLower ['b', '\n', 'A']) = false := by decide

/-- C8 amended: matching is case-insensitive (both sides lowercased); a
query of length ≥ 2 matches iff it occurs anywhere as a substring of the
title; a single-character query matches iff it is a prefix of the title OR
of the remainder after some line terminator (the regex carries the `m`
flag, so `^` anchors at every line start); for titles without line
terminators this is exactly the title-prefix condition the claim states. -/
theorem title_search_amended (q title : List Char) :
    (2 ≤ q.length →
      (titleMatch q title = true ↔ ∃ l r, jsToLower title = l ++ jsToLower q ++ r))
    ∧ (q.length = 1 →
      (titleMatch q title = true ↔
        (∃ r, jsToLower title = jsToLower q ++ r)
        ∨ ∃ l c r, jsToLower title = l ++ c :: r ∧ isLineTerm c = true
            ∧ ∃ r2, r = jsToLower q ++ r2))
    ∧ ((jsToLower title).all (fun c => !(isLineTerm c)) = true → q.length = 1 →
      (titleMatch q title = true ↔ ∃ r, jsToLower title = jsToLower q ++ r)) := by
  refine ⟨?_, ?_, ?_⟩
  · intro h
    rw [titleMatch, if_pos h]
    exact substringTest_iff _ _
  · intro h
    rw [titleMatch, if_neg (by omega)]
    rw [mlAnchorTest]
    simp only [Bool.or_eq_true, isPrefixOf_iff_exists, mlAfterTerm_iff]
  · intro hterm h
    rw [titleMatch, if_neg (by omega)]
    rw [mlAnchorTest, mlAfterTerm_of_noTerm _ _ hterm]
    simp only [Bool.or_false, isPrefixOf_iff_exists]

/-- Witness for C8 amended at three concrete query/title pairs. -/
theorem title_search_amended_witness :
    (titleMatch ['a', 'b'] ['x', 'A', 'b'] = true ↔
      ∃ l r, jsToLower ['x', 'A', 'b'] = l ++ jsToLower ['a', 'b'] ++ r)
    ∧ (titleMatch ['a'] ['b', '\n', 'a'] = true ↔
        (∃ r, jsToLower ['b', '\n', 'a'] = jsToLower ['a'] ++ r)
        ∨ ∃ l c r, jsToLower ['b', '\n', 'a'] = l ++ c :: r ∧ isLineTerm c = true
            ∧ ∃ r2, r = jsToLower ['a'] ++ r2)
    ∧ (titleMatch ['a'] ['x', 'y'] = true ↔
        ∃ r, jsToLower ['x', 'y'] = jsToLower ['a'] ++ r) :=
  ⟨(title_search_amended ['a', 'b'] ['x', 'A', 'b']).1 (by decide),
   (title_search_amended ['a'] ['b', '\n', 'a']).2.1 (by decide),
   (title_search_amended ['a'] ['x', 'y']).2.2 (by decide) (by decide)⟩

end HydroCourse
